import Mathlib

/-!
Shallow embedding of the configuration-resolution core in
`internal/core/vagrantfile.go` (the `Vagrantfile` type and its methods),
together with theorems settling the frozen claims about it.

Go maps are modelled as association lists with first-match lookup; Go's
nondeterministic map-iteration order is fixed to list order, which the
theorems below do not depend on. Nil pointers are modelled as `Option`
with `none`, and run-time panics (nil dereference, out-of-range index,
failed type assertion, method call on a nil interface) are explicit
outcomes of type `GoPanic`.
-/

namespace Vagrantfile

/-- Run-time panics that the Go code can hit. -/
inductive GoPanic where
  | nilPointerDeref
  | nilInterfaceCall
  | indexOutOfRange
  | interfaceConversion
deriving DecidableEq, Repr

/-- Error values produced with `fmt.Errorf` in `vagrantfile.go`; each
constructor carries exactly the data interpolated into the corresponding
message. -/
inductive VError where
  | noLookupPath
  | failedToLocate (path : List String)
  | noConfigForNamespace (ns : String)
  | invalidTypeForNamespace (ns : String)
  | noPluginForNamespace (ns : String)
  | invalidConfigType (ns : String)
  | badMergeValueType
  | externalFailure (msg : String)
  | emptyTargetValue
  | wrapTargetSource (e : VError)
  | wrapProviderSource (e : VError)
  | wrapInit (e : VError)
deriving DecidableEq, Repr

/-- Result of running a piece of Go code: a value, a returned error, or a
panic. -/
inductive GoResult (α : Type) where
  | ok : α → GoResult α
  | err : VError → GoResult α
  | panicked : GoPanic → GoResult α
deriving DecidableEq

/-- The dynamic values that flow through the configuration tree
(`interface{}` in Go). `vcfg` is a `*component.ConfigData` (its `Data`
map), `vsmap` a `map[string]interface{}`, `vimap` a
`map[interface{}]interface{}`, `vsym` a `types.Symbol`, `varr` an
`[]interface{}`, `vraw` a `*vagrant_plugin_sdk.Config_RawRubyValue`
(payload opaque), and `vnil` the Go nil interface value. -/
inductive GoValue : Type where
  | vnil : GoValue
  | vstr : String → GoValue
  | vsym : String → GoValue
  | vint : Int → GoValue
  | vbool : Bool → GoValue
  | varr : List GoValue → GoValue
  | vsmap : List (String × GoValue) → GoValue
  | vimap : List (GoValue × GoValue) → GoValue
  | vcfg : List (String × GoValue) → GoValue
  | vraw : String → GoValue

/-- The `Data` field of a `component.ConfigData`: a string-keyed map. -/
abbrev Entries := List (String × GoValue)

/-- First-match lookup in a string-keyed association list (Go map read). -/
def lookupEntry : Entries → String → Option GoValue
  | [], _ => none
  | (k, v) :: rest, key => if k = key then some v else lookupEntry rest key

/-- Key-presence test (`_, ok := m[k]` in Go). -/
def hasKey (m : Entries) (k : String) : Bool :=
  (lookupEntry m k).isSome

/-- Lookup in a `map[interface{}]interface{}` where a key matches when it
is a plain string equal to `key`, or a `types.Symbol` whose text equals
`key` (the loop in `GetValue`, lines 621-634). -/
def lookupImap : List (GoValue × GoValue) → String → Option GoValue
  | [], _ => none
  | (k, v) :: rest, key =>
    match k with
    | .vstr s => if s = key then some v else lookupImap rest key
    | .vsym s => if s = key then some v else lookupImap rest key
    | _ => lookupImap rest key

/-- `getNamespace` (lines 662-688): reads `v.root.Data[n]` — panics when
`root` is nil — and returns the namespace's inner map when the entry is a
`*component.ConfigData`, nil (`none`) when absent or of another type. -/
def getNamespace (root : Option Entries) (n : String) : GoResult (Option Entries) :=
  match root with
  | none => .panicked .nilPointerDeref
  | some data =>
    match lookupEntry data n with
    | none => .ok none
    | some raw =>
      match raw with
      | .vcfg c => .ok (some c)
      | _ => .ok none

/-- `GetConfig` (lines 355-374): reads `v.root.Data[namespace]` — panics
when `root` is nil — and errors when the namespace is absent or not a
`*component.ConfigData`. -/
def GetConfig (root : Option Entries) (namespace_ : String) : GoResult Entries :=
  match root with
  | none => .panicked .nilPointerDeref
  | some data =>
    match lookupEntry data namespace_ with
    | none => .err (.noConfigForNamespace namespace_)
    | some raw =>
      match raw with
      | .vcfg c => .ok c
      | _ => .err (.invalidTypeForNamespace namespace_)

/-- The loop of `GetValue` (lines 594-655): walks the remaining path
segments, trying the current value as a `map[string]interface{}`, then a
`*component.ConfigData`, then a `map[interface{}]interface{}`. On any
failure it returns the error built once at line 580, which carries the
full original path only. -/
def getValueSegs (path : List String) : GoValue → List String → GoResult GoValue
  | result, [] => .ok result
  | result, seg :: rest =>
    match result with
    | .vsmap sm =>
      match lookupEntry sm seg with
      | some v => getValueSegs path v rest
      | none => .err (.failedToLocate path)
    | .vcfg cd =>
      match lookupEntry cd seg with
      | some v => getValueSegs path v rest
      | none => .err (.failedToLocate path)
    | .vimap im =>
      match lookupImap im seg with
      | some v => getValueSegs path v rest
      | none => .err (.failedToLocate path)
    | _ => .err (.failedToLocate path)

/-- `GetValue` (lines 572-658): empty path errors; `path[0]` selects a
namespace via `getNamespace` (panicking when `root` is nil), a nil
namespace yields the path-lookup error, and the remaining segments are
walked by `getValueSegs`. -/
def GetValue (root : Option Entries) (path : List String) : GoResult GoValue :=
  match path with
  | [] => .err .noLookupPath
  | p0 :: rest =>
    match getNamespace root p0 with
    | .panicked p => .panicked p
    | .err e => .err e
    | .ok none => .err (.failedToLocate (p0 :: rest))
    | .ok (some ns) => getValueSegs (p0 :: rest) (.vsmap ns) rest

/-- The symbol-collecting loop of `TargetNames` (lines 417-426): keeps
the text of `types.Symbol` elements and skips every other element. -/
def symNames (xs : List GoValue) : List String :=
  xs.filterMap (fun val =>
    match val with
    | .vsym sym => some sym
    | _ => none)

/-- `TargetNames` (lines 390-437): starts from an empty list and returns
it unchanged when the "vm" namespace is nil, when `__defined_vm_keys` is
absent, or when that entry is not an `[]interface{}`; otherwise collects
the `types.Symbol` elements and substitutes `["default"]` only when that
collection is empty. Never returns an error. -/
def TargetNames (root : Option Entries) : GoResult (List String) :=
  match getNamespace root "vm" with
  | .panicked p => .panicked p
  | .err e => .err e
  | .ok none => .ok []
  | .ok (some vm) =>
    match lookupEntry vm "__defined_vm_keys" with
    | none => .ok []
    | some dvms =>
      match dvms with
      | .varr vmsList =>
        let list := symNames vmsList
        .ok (if list.isEmpty then ["default"] else list)
      | _ => .ok []

/-- `PrimaryTargetName` (lines 380-387): propagates a `TargetNames` error
and otherwise returns `list[0]`, which panics when the list is empty. -/
def PrimaryTargetName (root : Option Entries) : GoResult String :=
  match TargetNames root with
  | .panicked p => .panicked p
  | .err e => .err e
  | .ok list =>
    match list with
    | [] => .panicked .indexOutOfRange
    | n :: _ => .ok n

/-! Specification-side relation for the heterogeneous path walk of
`GetValue`: one step succeeds when the current value, viewed in the one
container representation its dynamic type admits, contains the segment. -/

/-- One lookup step of the three-representation fallback in `GetValue`. -/
inductive StepsTo : GoValue → String → GoValue → Prop where
  | smap (m : Entries) (seg : String) (v : GoValue) :
      lookupEntry m seg = some v → StepsTo (.vsmap m) seg v
  | cfg (c : Entries) (seg : String) (v : GoValue) :
      lookupEntry c seg = some v → StepsTo (.vcfg c) seg v
  | imap (m : List (GoValue × GoValue)) (seg : String) (v : GoValue) :
      lookupImap m seg = some v → StepsTo (.vimap m) seg v

/-- Iterated lookup steps over a list of path segments. -/
inductive WalksTo : GoValue → List String → GoValue → Prop where
  | nil (v : GoValue) : WalksTo v [] v
  | cons {v w out : GoValue} {s : String} {rest : List String} :
      StepsTo v s w → WalksTo w rest out → WalksTo v (s :: rest) out

lemma getValueSegs_ok_of_walksTo {start out : GoValue} {segs : List String}
    (path : List String) (h : WalksTo start segs out) :
    getValueSegs path start segs = .ok out := by
  induction h with
  | nil v => rfl
  | cons hstep _ ih =>
    cases hstep with
    | smap m seg v hl => simp [getValueSegs, hl, ih]
    | cfg c seg v hl => simp [getValueSegs, hl, ih]
    | imap m seg v hl => simp [getValueSegs, hl, ih]

lemma walksTo_of_getValueSegs_ok (path : List String) :
    ∀ (segs : List String) (start out : GoValue),
      getValueSegs path start segs = .ok out → WalksTo start segs out := by
  intro segs
  induction segs with
  | nil =>
    intro start out h
    cases h
    exact WalksTo.nil start
  | cons seg rest ih =>
    intro start out h
    cases start <;> simp only [getValueSegs] at h
    case vsmap m =>
      cases hl : lookupEntry m seg with
      | none => rw [hl] at h; cases h
      | some v =>
        rw [hl] at h
        exact WalksTo.cons (StepsTo.smap m seg v hl) (ih v out h)
    case vcfg c =>
      cases hl : lookupEntry c seg with
      | none => rw [hl] at h; cases h
      | some v =>
        rw [hl] at h
        exact WalksTo.cons (StepsTo.cfg c seg v hl) (ih v out h)
    case vimap m =>
      cases hl : lookupImap m seg with
      | none => rw [hl] at h; cases h
      | some v =>
        rw [hl] at h
        exact WalksTo.cons (StepsTo.imap m seg v hl) (ih v out h)
    all_goals cases h

lemma getValueSegs_err (path : List String) :
    ∀ (segs : List String) (start : GoValue) (e : VError),
      getValueSegs path start segs = .err e → e = .failedToLocate path := by
  intro segs
  induction segs with
  | nil => intro start e h; cases h
  | cons seg rest ih =>
    intro start e h
    cases start <;> simp only [getValueSegs] at h
    case vsmap m =>
      cases hl : lookupEntry m seg with
      | none => rw [hl] at h; cases h; rfl
      | some v => rw [hl] at h; exact ih v e h
    case vcfg c =>
      cases hl : lookupEntry c seg with
      | none => rw [hl] at h; cases h; rfl
      | some v => rw [hl] at h; exact ih v e h
    case vimap m =>
      cases hl : lookupImap m seg with
      | none => rw [hl] at h; cases h; rfl
      | some v => rw [hl] at h; exact ih v e h
    all_goals (cases h; rfl)

lemma getNamespace_ne_err (root : Option Entries) (n : String) (e : VError) :
    getNamespace root n ≠ .err e := by
  cases root with
  | none => simp [getNamespace]
  | some data =>
    simp only [getNamespace]
    cases lookupEntry data n with
    | none => simp
    | some raw => cases raw <;> simp

/-! Helper lemmas about `TargetNames` and `PrimaryTargetName`. -/

lemma targetNames_vm_none {root : Option Entries}
    (h : getNamespace root "vm" = .ok none) : TargetNames root = .ok [] := by
  unfold TargetNames
  rw [h]

lemma targetNames_no_keys {root : Option Entries} {vm : Entries}
    (h1 : getNamespace root "vm" = .ok (some vm))
    (h2 : lookupEntry vm "__defined_vm_keys" = none) :
    TargetNames root = .ok [] := by
  unfold TargetNames
  rw [h1]
  simp only [h2]

lemma targetNames_not_arr {root : Option Entries} {vm : Entries} {d : GoValue}
    (h1 : getNamespace root "vm" = .ok (some vm))
    (h2 : lookupEntry vm "__defined_vm_keys" = some d)
    (h3 : ∀ xs, d ≠ .varr xs) :
    TargetNames root = .ok [] := by
  unfold TargetNames
  rw [h1]
  simp only [h2]

lemma targetNames_arr {root : Option Entries} {vm : Entries} {xs : List GoValue}
    (h1 : getNamespace root "vm" = .ok (some vm))
    (h2 : lookupEntry vm "__defined_vm_keys" = some (.varr xs)) :
    TargetNames root =
      .ok (if (symNames xs).isEmpty then ["default"] else symNames xs) := by
  unfold TargetNames
  rw [h1]
  simp only [h2]

lemma primaryTargetName_of_empty {root : Option Entries}
    (h : TargetNames root = .ok []) :
    PrimaryTargetName root = .panicked .indexOutOfRange := by
  unfold PrimaryTargetName
  rw [h]

/-- C2, counterexample: on an instance on which `Init` has never
succeeded (`root` is nil), `GetConfig`, `getNamespace` and `GetValue` do
not fail with a defined "not initialized" error value — they dereference
the nil `root` pointer and panic. -/
theorem C2_counterexample :
    GetConfig none "vm" = .panicked .nilPointerDeref ∧
    getNamespace none "vm" = .panicked .nilPointerDeref ∧
    GetValue none ["vm", "box"] = .panicked .nilPointerDeref :=
  ⟨rfl, rfl, rfl⟩

/-- C2, amended: for every instance whose `root` is unset, every read
accessor (`GetConfig`, `getNamespace`, and `GetValue` on any non-empty
path) dereferences the nil `root` pointer and panics; no "not
initialized" error value exists anywhere in the code. -/
theorem C2_uninitialized_reads_panic (ns : String) (path : List String)
    (hpath : path ≠ []) :
    GetConfig none ns = .panicked .nilPointerDeref ∧
    getNamespace none ns = .panicked .nilPointerDeref ∧
    GetValue none path = .panicked .nilPointerDeref := by
  refine ⟨rfl, rfl, ?_⟩
  cases path with
  | nil => exact absurd rfl hpath
  | cons p rest => rfl

/-- Witness for C2: the amended theorem applied at a concrete namespace
and path. -/
theorem C2_uninitialized_reads_panic_witness :
    GetConfig none "config" = .panicked .nilPointerDeref ∧
    getNamespace none "config" = .panicked .nilPointerDeref ∧
    GetValue none ["config"] = .panicked .nilPointerDeref :=
  C2_uninitialized_reads_panic "config" ["config"] (by simp)

/-- C5, counterexample: with a root that has no "vm" namespace,
`TargetNames` returns the empty list and `nil` error — not the
single-element list `["default"]` the claim requires. -/
theorem C5_counterexample :
    TargetNames (some [("other", GoValue.vcfg [])]) = .ok [] ∧
    GoResult.ok ([] : List String) ≠ GoResult.ok ["default"] :=
  ⟨rfl, by decide⟩

/-- C5, amended: `TargetNames` returns the empty list when the "vm"
namespace is nil, when its `__defined_vm_keys` entry is absent, or when
that entry is not an `[]interface{}`; only when the entry is an array
does it return the symbol names found there, substituting `["default"]`
exactly when that collection is empty. -/
theorem C5_target_names :
    (∀ root, getNamespace root "vm" = .ok none → TargetNames root = .ok []) ∧
    (∀ root vm, getNamespace root "vm" = .ok (some vm) →
      lookupEntry vm "__defined_vm_keys" = none → TargetNames root = .ok []) ∧
    (∀ root vm d, getNamespace root "vm" = .ok (some vm) →
      lookupEntry vm "__defined_vm_keys" = some d → (∀ xs, d ≠ .varr xs) →
      TargetNames root = .ok []) ∧
    (∀ root vm xs, getNamespace root "vm" = .ok (some vm) →
      lookupEntry vm "__defined_vm_keys" = some (.varr xs) →
      TargetNames root =
        .ok (if (symNames xs).isEmpty then ["default"] else symNames xs)) :=
  ⟨fun _ h => targetNames_vm_none h,
   fun _ _ h1 h2 => targetNames_no_keys h1 h2,
   fun _ _ _ h1 h2 h3 => targetNames_not_arr h1 h2 h3,
   fun _ _ _ h1 h2 => targetNames_arr h1 h2⟩

/-- Witness for C5: the amended theorem applied at concrete roots — an
empty root gives `[]`, an empty defined-keys array gives `["default"]`,
and a one-symbol array gives that name. -/
theorem C5_target_names_witness :
    TargetNames (some []) = .ok [] ∧
    TargetNames (some [("vm", GoValue.vcfg
      [("__defined_vm_keys", GoValue.varr [])])]) = .ok ["default"] ∧
    TargetNames (some [("vm", GoValue.vcfg
      [("__defined_vm_keys", GoValue.varr [GoValue.vsym "web"])])]) = .ok ["web"] :=
  ⟨C5_target_names.1 (some []) rfl,
   C5_target_names.2.2.2 _ _ [] rfl rfl,
   C5_target_names.2.2.2 _ _ [GoValue.vsym "web"] rfl rfl⟩

/-- C6, amended: the path walk of `GetValue` succeeds exactly when each
segment is found in the one container representation its current value
admits (string-keyed map, tree wrapper, or heterogeneous map with string
or symbol keys compared by text); a failed lookup returns an error
carrying only the full path (or the empty-path error) — the offending
segment is not part of the error, only of the log output. -/
theorem C6_heterogeneous_lookup :
    (∀ (start out : GoValue) (segs path : List String),
      getValueSegs path start segs = .ok out ↔ WalksTo start segs out) ∧
    (∀ (root : Option Entries) (path : List String) (e : VError),
      GetValue root path = .err e →
        e = .noLookupPath ∨ e = .failedToLocate path) := by
  constructor
  · intro start out segs path
    exact ⟨fun h => walksTo_of_getValueSegs_ok path segs start out h,
           fun h => getValueSegs_ok_of_walksTo path h⟩
  · intro root path e h
    cases path with
    | nil =>
      injection h with h2
      exact Or.inl h2.symm
    | cons p0 rest =>
      simp only [GetValue] at h
      cases hg : getNamespace root p0 with
      | panicked p => rw [hg] at h; cases h
      | err e2 => exact absurd hg (getNamespace_ne_err root p0 e2)
      | ok onsp =>
        rw [hg] at h
        cases onsp with
        | none =>
          injection h with h2
          exact Or.inr h2.symm
        | some ns =>
          exact Or.inr (getValueSegs_err (p0 :: rest) rest (.vsmap ns) e h)

/-- C6, counterexample: two roots on which the same path
`["vm", "a", "b"]` fails at different segments — at `"b"` for the first
root (segment `"a"` resolves to an empty map) and already at `"a"` for
the second — yet `GetValue` returns the identical error value, which
carries only the full path: the error does not name the offending
segment. -/
theorem C6_counterexample :
    GetValue (some [("vm", GoValue.vcfg [("a", GoValue.vsmap [])])])
      ["vm", "a", "b"] = .err (.failedToLocate ["vm", "a", "b"]) ∧
    GetValue (some [("vm", GoValue.vcfg [])])
      ["vm", "a", "b"] = .err (.failedToLocate ["vm", "a", "b"]) :=
  ⟨rfl, rfl⟩

/-- Witness for C6: the amended theorem applied concretely — a walk
through a string-keyed map, then a tree wrapper, then a symbol-keyed map
reaches the leaf, and a concrete failed lookup produces the
full-path-only error. -/
theorem C6_heterogeneous_lookup_witness :
    WalksTo (GoValue.vsmap [("a", GoValue.vcfg
        [("b", GoValue.vimap [(GoValue.vsym "c", GoValue.vstr "leaf")])])])
      ["a", "b", "c"] (GoValue.vstr "leaf") ∧
    (VError.failedToLocate ["ns", "x"] = VError.noLookupPath ∨
      VError.failedToLocate ["ns", "x"] = VError.failedToLocate ["ns", "x"]) :=
  ⟨(C6_heterogeneous_lookup.1 _ (GoValue.vstr "leaf")
      ["a", "b", "c"] ["a", "b", "c"]).mp rfl,
   C6_heterogeneous_lookup.2 (some [("ns", GoValue.vcfg [])]) ["ns", "x"] _ rfl⟩

/-- C8: for every root on which the "vm" namespace is nil, or its
`__defined_vm_keys` entry is absent, or that entry is not an
`[]interface{}`, `TargetNames` returns the empty list and
`PrimaryTargetName` — which reads `list[0]` without checking for
emptiness — panics with an out-of-range index instead of returning its
declared `(string, error)` result. -/
theorem C8_primary_target_name_panics (root : Option Entries)
    (h : getNamespace root "vm" = .ok none ∨
      (∃ vm, getNamespace root "vm" = .ok (some vm) ∧
        lookupEntry vm "__defined_vm_keys" = none) ∨
      (∃ vm d, getNamespace root "vm" = .ok (some vm) ∧
        lookupEntry vm "__defined_vm_keys" = some d ∧ ∀ xs, d ≠ .varr xs)) :
    TargetNames root = .ok [] ∧
    PrimaryTargetName root = .panicked .indexOutOfRange := by
  have hl : TargetNames root = .ok [] := by
    rcases h with h | ⟨vm, h1, h2⟩ | ⟨vm, d, h1, h2, h3⟩
    · exact targetNames_vm_none h
    · exact targetNames_no_keys h1 h2
    · exact targetNames_not_arr h1 h2 h3
  exact ⟨hl, primaryTargetName_of_empty hl⟩

/-- Witness for C8: a concrete root without a "vm" namespace. -/
theorem C8_primary_target_name_panics_witness :
    TargetNames (some [("winrm", GoValue.vcfg [])]) = .ok [] ∧
    PrimaryTargetName (some [("winrm", GoValue.vcfg [])])
      = .panicked .indexOutOfRange :=
  C8_primary_target_name_panics (some [("winrm", GoValue.vcfg [])]) (Or.inl rfl)

/-! The merge engine: registrations, `componentForKey` and `merge`. -/

/-- A config plugin component (`core.Config`): the merge and finalize
capabilities supplied by a registered plugin, external to this file. -/
structure Component where
  merge : Entries → Entries → Except VError Entries
  finalize : Entries → Except VError Entries

/-- The `registrations` map (line 99): identifier to registration entry;
the value is `none` when the entry's `plugin` field is nil (an entry
created by `registrations.init` for sub-registrations only). -/
abbrev Registrations := List (String × Option Component)

/-- Go map read on the registrations map. -/
def lookupReg : Registrations → String → Option (Option Component)
  | [], _ => none
  | (k, c) :: rest, key => if k = key then some c else lookupReg rest key

/-- `componentForKey` (lines 878-890): errors when the namespace has no
registration or its registration has a nil plugin; the external
`plugin.Component` call is modelled as directly yielding the component. -/
def componentForKey (regs : Registrations) (namespace_ : String) :
    Except VError Component :=
  match lookupReg regs namespace_ with
  | none => .error (.noPluginForNamespace namespace_)
  | some none => .error (.noPluginForNamespace namespace_)
  | some (some c) => .ok c

/-- The key set collected by `merge` (lines 901-908): every key present
on either side, each once; Go's nondeterministic map-iteration order is
fixed to first-occurrence order. -/
def mergeKeys (base toMerge : Entries) : List String :=
  (base.map Prod.fst ++ toMerge.map Prod.fst).dedup

/-- The Go type assertion `x.(*component.ConfigData)` (used at lines
936, 940, 753): yields the tree's entries, or `none` when the value is
not a configuration tree. -/
def asConfigData : GoValue → Option Entries
  | .vcfg c => some c
  | _ => none

/-- The body of `merge`'s per-key loop (lines 915-953) for one key, given
the key's registered component and the two sides' values: a one-sided
value passes through unchanged (no component call), both-sides values
must both be `*component.ConfigData` and are delegated to the component's
merge, and a key on neither side contributes nothing. -/
def mergeOne (c : Component) (rawBase rawToMerge : Option GoValue) :
    Except VError (Option GoValue) :=
  match rawBase, rawToMerge with
  | some rb, none => .ok (some rb)
  | none, some rtm => .ok (some rtm)
  | some rb, some rtm =>
    match asConfigData rb with
    | none => .error .badMergeValueType
    | some valBase =>
      match asConfigData rtm with
      | none => .error .badMergeValueType
      | some valToMerge =>
        match c.merge valBase valToMerge with
        | .error e => .error e
        | .ok r => .ok (some (.vcfg r))
  | none, none => .ok none

/-- The per-key loop of `merge` (lines 910-954): for each key, the
component is looked up first (even for one-sided keys), then the key's
contribution is computed by `mergeOne` and stored in the result. -/
def mergeLoop (regs : Registrations) (base toMerge : Entries) :
    List String → Except VError Entries
  | [] => .ok []
  | k :: rest =>
    match componentForKey regs k with
    | .error e => .error e
    | .ok c =>
      match mergeOne c (lookupEntry base k) (lookupEntry toMerge k) with
      | .error e => .error e
      | .ok none => mergeLoop regs base toMerge rest
      | .ok (some val) =>
        match mergeLoop regs base toMerge rest with
        | .error e => .error e
        | .ok res => .ok ((k, val) :: res)

/-- `merge` (lines 893-957): runs the per-key loop over the union of the
two sides' keys. -/
def merge (regs : Registrations) (base toMerge : Entries) :
    Except VError Entries :=
  mergeLoop regs base toMerge (mergeKeys base toMerge)

lemma lookupEntry_isSome_iff {m : Entries} {k : String} :
    (lookupEntry m k).isSome ↔ k ∈ m.map Prod.fst := by
  induction m with
  | nil => simp [lookupEntry]
  | cons kv rest ih =>
    obtain ⟨k2, v⟩ := kv
    by_cases h : k2 = k
    · subst h; simp [lookupEntry]
    · simp [lookupEntry, h, ih, Ne.symm h]

lemma mem_mergeKeys_iff {base toMerge : Entries} {k : String} :
    k ∈ mergeKeys base toMerge ↔ (hasKey base k ∨ hasKey toMerge k) := by
  simp [mergeKeys, List.mem_dedup, hasKey, lookupEntry_isSome_iff]

lemma mergeOne_ok_none_iff (c : Component) (rb rt : Option GoValue) :
    mergeOne c rb rt = .ok none ↔ (rb = none ∧ rt = none) := by
  cases rb with
  | none => cases rt <;> simp [mergeOne]
  | some b =>
    cases rt with
    | none => simp [mergeOne]
    | some t =>
      simp only [mergeOne]
      cases asConfigData b with
      | none => simp
      | some vb =>
        cases asConfigData t with
        | none => simp
        | some vt =>
          cases hm : c.merge vb vt <;> simp [hm]

lemma mergeOne_bad_type {c : Component} {rb rt : Option GoValue}
    {bv tv : GoValue} (hb : rb = some bv) (ht : rt = some tv)
    (hbad : asConfigData bv = none ∨ asConfigData tv = none) :
    ∃ e, mergeOne c rb rt = .error e := by
  subst hb
  subst ht
  simp only [mergeOne]
  rcases hbad with h | h
  · rw [h]
    exact ⟨_, rfl⟩
  · cases hcb : asConfigData bv with
    | none => exact ⟨_, rfl⟩
    | some vb =>
      rw [h]
      exact ⟨_, rfl⟩

lemma mergeLoop_ok_keys {regs : Registrations} {base toMerge : Entries}
    {ks : List String} :
    ∀ {res : Entries},
      mergeLoop regs base toMerge ks = .ok res →
      res.map Prod.fst = ks.filter (fun k => hasKey base k || hasKey toMerge k) := by
  induction ks with
  | nil =>
    intro res h
    cases h
    simp
  | cons k rest ih =>
    intro res h
    simp only [mergeLoop] at h
    split at h
    · cases h
    · rename_i c hc
      split at h
      · cases h
      · rename_i hm
        have hnone := (mergeOne_ok_none_iff c _ _).mp hm
        have hkey : (hasKey base k || hasKey toMerge k) = false := by
          simp [hasKey, hnone.1, hnone.2]
        simp [List.filter_cons, hkey, ih h]
      · rename_i val hm
        split at h
        · cases h
        · rename_i res2 hr
          cases h
          have hkey : (hasKey base k || hasKey toMerge k) = true := by
            cases hb : lookupEntry base k with
            | some b => simp [hasKey, hb]
            | none =>
              cases ht : lookupEntry toMerge k with
              | some t => simp [hasKey, ht]
              | none =>
                rw [(mergeOne_ok_none_iff c _ _).mpr ⟨hb, ht⟩] at hm
                cases hm
          simp [List.filter_cons, hkey, ih hr]

lemma mergeLoop_ok_comp {regs : Registrations} {base toMerge : Entries}
    {ks : List String} :
    ∀ {res : Entries} {k : String},
      mergeLoop regs base toMerge ks = .ok res → k ∈ ks →
      ∃ c, componentForKey regs k = .ok c ∧
        ∃ w, mergeOne c (lookupEntry base k) (lookupEntry toMerge k) = .ok w := by
  induction ks with
  | nil => intro res k _ hk; cases hk
  | cons k0 rest ih =>
    intro res k h hk
    simp only [mergeLoop] at h
    split at h
    · cases h
    · rename_i c0 hc0
      by_cases hkk : k = k0
      · subst hkk
        split at h
        · cases h
        · rename_i hm
          exact ⟨c0, hc0, none, hm⟩
        · rename_i val hm
          exact ⟨c0, hc0, some val, hm⟩
      · have hk2 : k ∈ rest := (List.mem_cons.mp hk).resolve_left hkk
        split at h
        · cases h
        · exact ih h hk2
        · split at h
          · cases h
          · rename_i res2 hr
            cases h
            exact ih hr hk2

lemma mergeLoop_ok_at {regs : Registrations} {base toMerge : Entries}
    {ks : List String} :
    ∀ {res : Entries} {k : String} {c : Component} {w : GoValue},
      mergeLoop regs base toMerge ks = .ok res → k ∈ ks →
      componentForKey regs k = .ok c →
      mergeOne c (lookupEntry base k) (lookupEntry toMerge k) = .ok (some w) →
      lookupEntry res k = some w := by
  induction ks with
  | nil => intro res k c w _ hk; cases hk
  | cons k0 rest ih =>
    intro res k c w h hk hc hw
    simp only [mergeLoop] at h
    split at h
    · cases h
    · rename_i c0 hc0
      by_cases hkk : k = k0
      · subst hkk
        rw [hc] at hc0
        injection hc0 with hcc
        subst hcc
        split at h
        · cases h
        · rename_i hm
          rw [hw] at hm
          cases hm
        · rename_i val hm
          rw [hw] at hm
          injection hm with hval
          injection hval with hval2
          split at h
          · cases h
          · rename_i res2 hr
            cases h
            simp [lookupEntry, hval2]
      · have hk2 : k ∈ rest := (List.mem_cons.mp hk).resolve_left hkk
        split at h
        · cases h
        · exact ih h hk2 hc hw
        · rename_i val hm
          split at h
          · cases h
          · rename_i res2 hr
            cases h
            simp only [lookupEntry, if_neg (Ne.symm hkk)]
            exact ih hr hk2 hc hw

lemma mergeLoop_regs_agree {regs1 regs2 : Registrations}
    {base toMerge : Entries} {k : String}
    (hagree : ∀ j, j ≠ k → lookupReg regs1 j = lookupReg regs2 j)
    (h1 : ∃ c, componentForKey regs1 k = .ok c)
    (h2 : ∃ c, componentForKey regs2 k = .ok c)
    (hone : lookupEntry base k = none ∨ lookupEntry toMerge k = none) :
    ∀ ks, mergeLoop regs1 base toMerge ks = mergeLoop regs2 base toMerge ks := by
  intro ks
  induction ks with
  | nil => rfl
  | cons j rest ih =>
    simp only [mergeLoop]
    by_cases hjk : j = k
    · subst hjk
      obtain ⟨c1, hc1⟩ := h1
      obtain ⟨c2, hc2⟩ := h2
      rw [hc1, hc2]
      have hmeq : mergeOne c1 (lookupEntry base j) (lookupEntry toMerge j)
          = mergeOne c2 (lookupEntry base j) (lookupEntry toMerge j) := by
        rcases hone with h | h
        · rw [h]
          cases lookupEntry toMerge j <;> rfl
        · rw [h]
          cases lookupEntry base j <;> rfl
      simp only [hmeq, ih]
    · have hcomp : componentForKey regs1 j = componentForKey regs2 j := by
        unfold componentForKey
        rw [hagree j hjk]
      rw [hcomp]
      simp only [ih]

/-- C4: when `merge(base, overlay)` succeeds, the result's namespace set
is exactly the union of the two sides' namespace sets; a namespace
present on only one side appears in the result equal to that side's
value unchanged; a namespace present on both sides equals the registered
component's merge of the two values. A non-tree value on either side of
a both-sides namespace makes `merge` fail with an error. Changing the
component registered for a one-sided namespace (keeping it registered)
cannot change `merge`'s result at all — the delegate's merge is never
invoked for such a namespace. -/
theorem C4_merge_engine (regs : Registrations) (base toMerge : Entries) :
    (∀ res, merge regs base toMerge = .ok res →
      (∀ k, hasKey res k = (hasKey base k || hasKey toMerge k)) ∧
      (∀ k v, lookupEntry base k = some v → lookupEntry toMerge k = none →
        lookupEntry res k = some v) ∧
      (∀ k v, lookupEntry base k = none → lookupEntry toMerge k = some v →
        lookupEntry res k = some v) ∧
      (∀ k vb vt, lookupEntry base k = some (.vcfg vb) →
        lookupEntry toMerge k = some (.vcfg vt) →
        ∃ c r, componentForKey regs k = .ok c ∧ c.merge vb vt = .ok r ∧
          lookupEntry res k = some (.vcfg r))) ∧
    (∀ k bv tv, lookupEntry base k = some bv → lookupEntry toMerge k = some tv →
      (asConfigData bv = none ∨ asConfigData tv = none) →
      ∃ e, merge regs base toMerge = .error e) ∧
    (∀ regs2 k, (∀ j, j ≠ k → lookupReg regs j = lookupReg regs2 j) →
      (∃ c, componentForKey regs k = .ok c) →
      (∃ c, componentForKey regs2 k = .ok c) →
      (lookupEntry base k = none ∨ lookupEntry toMerge k = none) →
      merge regs base toMerge = merge regs2 base toMerge) := by
  refine ⟨?_, ?_, ?_⟩
  · intro res h
    have hkeys := mergeLoop_ok_keys
      (show mergeLoop regs base toMerge (mergeKeys base toMerge) = .ok res from h)
    refine ⟨?_, ?_, ?_, ?_⟩
    · intro k
      have hiff : (hasKey res k = true) ↔
          ((hasKey base k || hasKey toMerge k) = true) := by
        rw [hasKey, lookupEntry_isSome_iff, hkeys, List.mem_filter]
        constructor
        · rintro ⟨_, hp⟩
          exact hp
        · intro hp
          exact ⟨mem_mergeKeys_iff.mpr (by simpa using hp), hp⟩
      cases h1 : hasKey res k <;>
        cases h2 : (hasKey base k || hasKey toMerge k) <;> simp_all
    · intro k v hb ht
      have hkmem : k ∈ mergeKeys base toMerge :=
        mem_mergeKeys_iff.mpr (Or.inl (by simp [hasKey, hb]))
      obtain ⟨c, hc, w, hw⟩ := mergeLoop_ok_comp h hkmem
      have hw2 : mergeOne c (lookupEntry base k) (lookupEntry toMerge k)
          = .ok (some v) := by
        rw [hb, ht]
        rfl
      exact mergeLoop_ok_at h hkmem hc hw2
    · intro k v hb ht
      have hkmem : k ∈ mergeKeys base toMerge :=
        mem_mergeKeys_iff.mpr (Or.inr (by simp [hasKey, ht]))
      obtain ⟨c, hc, w, hw⟩ := mergeLoop_ok_comp h hkmem
      have hw2 : mergeOne c (lookupEntry base k) (lookupEntry toMerge k)
          = .ok (some v) := by
        rw [hb, ht]
        rfl
      exact mergeLoop_ok_at h hkmem hc hw2
    · intro k vb vt hb ht
      have hkmem : k ∈ mergeKeys base toMerge :=
        mem_mergeKeys_iff.mpr (Or.inl (by simp [hasKey, hb]))
      obtain ⟨c, hc, w, hw⟩ := mergeLoop_ok_comp h hkmem
      rw [hb, ht] at hw
      simp only [mergeOne, asConfigData] at hw
      cases hm : c.merge vb vt with
      | error e => rw [hm] at hw; cases hw
      | ok r =>
        rw [hm] at hw
        injection hw with hw2
        refine ⟨c, r, hc, hm, ?_⟩
        apply mergeLoop_ok_at h hkmem hc
        rw [hb, ht]
        simp only [mergeOne, asConfigData, hm, hw2]
  · intro k bv tv hb ht hbad
    cases hres : merge regs base toMerge with
    | error e => exact ⟨e, rfl⟩
    | ok res =>
      have hkmem : k ∈ mergeKeys base toMerge :=
        mem_mergeKeys_iff.mpr (Or.inl (by simp [hasKey, hb]))
      obtain ⟨c, hc, w, hw⟩ := mergeLoop_ok_comp hres hkmem
      obtain ⟨e, he⟩ := mergeOne_bad_type (c := c) hb ht hbad
      rw [hw] at he
      cases he
  · intro regs2 k hagree h1 h2 hone
    unfold merge
    exact mergeLoop_regs_agree hagree h1 h2 hone (mergeKeys base toMerge)

/-- A concatenating config component, used by the C4 witness. -/
def catComp : Component :=
  { merge := fun x y => .ok (x ++ y), finalize := fun x => .ok x }

/-- An always-failing config component, used by the C4 witness to show
the delegate of a one-sided namespace is never consulted. -/
def errComp : Component :=
  { merge := fun _ _ => .error (.externalFailure "boom"),
    finalize := fun x => .ok x }

/-- Registrations for namespaces "a" and "b", both concatenating. -/
def regsAB : Registrations := [("a", some catComp), ("b", some catComp)]

/-- Like `regsAB` but with "b" owned by the always-failing component. -/
def regsAB2 : Registrations := [("a", some catComp), ("b", some errComp)]

/-- A base tree defining only namespace "a". -/
def baseA : Entries := [("a", GoValue.vcfg [("x", GoValue.vstr "1")])]

/-- An overlay tree defining only namespace "b". -/
def overB : Entries := [("b", GoValue.vcfg [("y", GoValue.vstr "2")])]

/-- Witness for C4: the theorem applied at concrete trees — "a" present
only in the base passes through unchanged, merging two non-tree values
for one namespace errors, and replacing the one-sided namespace "b"'s
component by an always-failing one leaves the result unchanged. -/
theorem C4_merge_engine_witness :
    lookupEntry [("a", GoValue.vcfg [("x", GoValue.vstr "1")]),
        ("b", GoValue.vcfg [("y", GoValue.vstr "2")])] "a"
      = some (GoValue.vcfg [("x", GoValue.vstr "1")]) ∧
    (∃ e, merge regsAB [("a", GoValue.vstr "s")]
        [("a", GoValue.vstr "t")] = .error e) ∧
    merge regsAB baseA overB = merge regsAB2 baseA overB := by
  refine ⟨?_, ?_, ?_⟩
  · exact ((C4_merge_engine regsAB baseA overB).1 _ rfl).2.1 "a" _ rfl rfl
  · exact (C4_merge_engine regsAB [("a", GoValue.vstr "s")]
      [("a", GoValue.vstr "t")]).2.1 "a" _ _ rfl rfl (Or.inl rfl)
  · exact (C4_merge_engine regsAB baseA overB).2.2 regsAB2 "b"
      (fun j hj => by
        simp [regsAB, regsAB2, lookupReg, Ne.symm hj])
      ⟨catComp, rfl⟩ ⟨errComp, rfl⟩ (Or.inl rfl)

/-! Sources, the finalize engine, `generate` and `Init`. -/

/-- `LoadLocation` (lines 40-48), in ascending precedence order. -/
inductive LoadLocation where
  | box
  | basis
  | project
  | target
  | provider
deriving DecidableEq, Repr

/-- The ascending iteration `VAGRANTFILE_BOX .. VAGRANTFILE_PROVIDER`
performed by `Init` (line 297). -/
def allLocations : List LoadLocation :=
  [.box, .basis, .project, .target, .provider]

/-- `ValidRootLocations` (lines 52-56). -/
def isValidRootLocation : LoadLocation → Bool
  | .basis => true
  | .project => true
  | .target => true
  | _ => false

/-- A wire-level `Args_Hash` payload (opaque to this core). -/
abbrev ArgsHash := GoValue

/-- The `vagrant_server.Vagrantfile` proto backing a source: unfinalized
payload and optional finalized payload. -/
structure VagrantfileProto where
  Unfinalized : Option ArgsHash
  Finalized : Option ArgsHash

/-- `source` (lines 132-136): backing proto, optional memoized finalized
tree, and the unfinalized tree (nil possible, mirroring the Go
pointers). -/
structure SourceV where
  base : VagrantfileProto
  finalized : Option Entries
  unfinalized : Option Entries

/-- The external collaborators consumed by the pipeline: the mapping
service's decode (`generateConfig`, which may yield a nil tree without
error) and encode (`setFinalized`), and the two legacy-runtime parser
calls used by `TargetConfig`. -/
structure ExternalWorld where
  decodeHash : Option ArgsHash → Except VError (Option Entries)
  encodeData : Entries → Except VError ArgsHash
  parseSubvm : String → Except VError ArgsHash
  parseProvider : String → String → Except VError ArgsHash

/-- The per-instance state touched by the resolution pipeline: the
sources map, the root (nil until a successful `Init`), the registrations
and whether the instance has an origin scope. -/
structure VFileCore where
  sources : List (LoadLocation × SourceV)
  root : Option Entries
  regs : Registrations
  origin : Option Unit

/-- Go map read on the sources map. -/
def lookupLoc : List (LoadLocation × SourceV) → LoadLocation → Option SourceV
  | [], _ => none
  | (k, s) :: rest, key => if k = key then some s else lookupLoc rest key

/-- `newSource` (lines 711-731): decodes the unfinalized payload, and the
finalized payload when the proto carries one; any decode error aborts. -/
def newSource (W : ExternalWorld) (f : VagrantfileProto) :
    Except VError SourceV :=
  match W.decodeHash f.Unfinalized with
  | .error e => .error e
  | .ok unf =>
    match f.Finalized with
    | some fin =>
      match W.decodeHash (some fin) with
      | .error e => .error e
      | .ok find => .ok { base := f, unfinalized := unf, finalized := find }
    | none => .ok { base := f, unfinalized := unf, finalized := none }

/-- `Source` (lines 233-263): a nil Vagrantfile proto is ignored;
otherwise the decoded source replaces any prior source at the location
(map assignment modelled by shadowing cons). -/
def Source (W : ExternalWorld) (v : VFileCore) (vf : Option VagrantfileProto)
    (l : LoadLocation) : Except VError VFileCore :=
  match vf with
  | none => .ok v
  | some f =>
    match newSource W f with
    | .error e => .error e
    | .ok s => .ok { v with sources := (l, s) :: v.sources }

/-- The loop of `finalize` (lines 745-776), with the named `result`
accumulator: a missing component or a failing component finalize returns
the partially-built result together with the error; a non-tree namespace
value returns nil and a type error; on success the finalized value is
stored under the namespace. -/
def finalizeLoop (regs : Registrations) :
    Entries → Entries → Option Entries × Option VError
  | [], acc => (some acc, none)
  | (k, val) :: rest, acc =>
    match componentForKey regs k with
    | .error e => (some acc, some e)
    | .ok c =>
      match asConfigData val with
      | none => (none, some (.invalidConfigType k))
      | some data =>
        match c.finalize data with
        | .error e => (some acc, some e)
        | .ok r => finalizeLoop regs rest (acc ++ [(k, .vcfg r)])

/-- `finalize` (lines 737-781): returns the Go function's
`(result, err)` pair; on error the first component is what the named
`result` variable holds at that point. -/
def finalize (regs : Registrations) (conf : Entries) :
    Option Entries × Option VError :=
  finalizeLoop regs conf []

/-- `generate`'s merging loop (lines 822-851): a location without a
source is skipped; a nil running config is replaced by the location's
unfinalized tree; otherwise the two are merged (a nil unfinalized tree
would be dereferenced inside `merge`). -/
def generateLoop (regs : Registrations)
    (sources : List (LoadLocation × SourceV)) :
    Option Entries → List LoadLocation → GoResult (Option Entries)
  | c, [] => .ok c
  | c, i :: rest =>
    match lookupLoc sources i with
    | none => generateLoop regs sources c rest
    | some s =>
      match c with
      | none => generateLoop regs sources s.unfinalized rest
      | some cv =>
        match s.unfinalized with
        | none => .panicked .nilPointerDeref
        | some u =>
          match merge regs cv u with
          | .error e => .err e
          | .ok c2 => generateLoop regs sources (some c2) rest

/-- `generate` (lines 813-854): no locations yields an empty tree; the
first location's source is read unguarded (`v.sources[locs[0]]`), then
the remaining locations are folded through `merge`. -/
def generate (regs : Registrations)
    (sources : List (LoadLocation × SourceV)) (locs : List LoadLocation) :
    GoResult (Option Entries) :=
  match locs with
  | [] => .ok (some [])
  | l0 :: rest =>
    match lookupLoc sources l0 with
    | none => .panicked .nilPointerDeref
    | some s0 => generateLoop regs sources s0.unfinalized rest

/-- `setFinalized` (lines 786-808): stores the finalized tree on the
source first, then encodes it; an encode error is returned with the
memoized tree already set. -/
def setFinalized (W : ExternalWorld) (s : SourceV) (f : Entries) :
    SourceV × Option VError :=
  let s2 := { s with finalized := some f }
  match W.encodeData f with
  | .error e => (s2, some e)
  | .ok raw => ({ s2 with base := { s2.base with Finalized := some raw } }, none)

/-- The locations with a present source, collected in ascending
precedence order (lines 295-301). -/
def initLocations (sources : List (LoadLocation × SourceV)) :
    List LoadLocation :=
  allLocations.filter (fun i => (lookupLoc sources i).isSome)

/-- Step 5 of `Init` (lines 342-347): when a terminal-location source
was selected in step 2, encode the root and store it as that source's
finalized payload; the root is left as finalize produced it whether or
not the storage succeeds. -/
def initStore (W : ExternalWorld) (v2 : VFileCore)
    (sLoc : Option LoadLocation) : GoResult Unit × VFileCore :=
  match sLoc with
  | none => (.ok (), v2)
  | some final =>
    match lookupLoc v2.sources final with
    | none => (.panicked .nilPointerDeref, v2)
    | some src =>
      match v2.root with
      | none => (.panicked .nilPointerDeref, v2)
      | some f =>
        match (setFinalized W src f).2 with
        | some e =>
          (.err e, { v2 with
            sources := (final, (setFinalized W src f).1) :: v2.sources })
        | none =>
          (.ok (), { v2 with
            sources := (final, (setFinalized W src f).1) :: v2.sources })

/-- Steps 3-5 of `Init` (lines 324-351): generate the merged tree,
assign `v.root` from `finalize`'s first return component whether or not
finalize errored (`v.root, err = v.finalize(c)` assigns both), then
store the finalized payload on the terminal source when one was
selected. -/
def initSlow (W : ExternalWorld) (v : VFileCore)
    (locations : List LoadLocation) (sLoc : Option LoadLocation) :
    GoResult Unit × VFileCore :=
  match generate v.regs v.sources locations with
  | .panicked p => (.panicked p, v)
  | .err e => (.err e, v)
  | .ok none => (.panicked .nilPointerDeref, v)
  | .ok (some cv) =>
    match (finalize v.regs cv).2 with
    | some e => (.err e, { v with root := (finalize v.regs cv).1 })
    | none => initStore W { v with root := (finalize v.regs cv).1 } sLoc

/-- The terminal-location selection of `Init` (lines 308-312): the
highest-precedence present location, when it is a valid root
location. -/
def initFinalLoc (locations : List LoadLocation) : Option LoadLocation :=
  match locations.getLast? with
  | some final => if isValidRootLocation final then some final else none
  | none => none

/-- `Init` (lines 287-352): collect present locations in ascending
precedence order; when the highest-precedence present location is a
valid root location and its source carries a memoized finalized tree,
adopt it as root and return; otherwise run the merge, finalize and
storage steps of `initSlow`. -/
def Init (W : ExternalWorld) (v : VFileCore) : GoResult Unit × VFileCore :=
  match initFinalLoc (initLocations v.sources) with
  | some final =>
    match lookupLoc v.sources final with
    | some src =>
      match src.finalized with
      | some fin => (.ok (), { v with root := some fin })
      | none => initSlow W v (initLocations v.sources) (some final)
    | none => (.panicked .nilPointerDeref, v)
  | none => initSlow W v (initLocations v.sources) none

lemma initStore_snd_root (W : ExternalWorld) (v2 : VFileCore)
    (sLoc : Option LoadLocation) :
    (initStore W v2 sLoc).2.root = v2.root := by
  unfold initStore
  split
  · rfl
  · split
    · rfl
    · split
      · rfl
      · split <;> rfl

lemma initSlow_err_root {W : ExternalWorld} {v : VFileCore}
    {locations : List LoadLocation} {sLoc : Option LoadLocation}
    {e : VError} {v2 : VFileCore}
    (h : initSlow W v locations sLoc = (.err e, v2)) :
    v2.root = v.root ∨
    ∃ c, generate v.regs v.sources locations = .ok (some c) ∧
      v2.root = (finalize v.regs c).1 := by
  unfold initSlow at h
  split at h
  · cases h
  · cases h
    exact Or.inl rfl
  · cases h
  · rename_i cv hgen
    split at h
    · cases h
      exact Or.inr ⟨cv, hgen, rfl⟩
    · have h2 := congrArg Prod.snd h
      have h3 := initStore_snd_root W
        { v with root := (finalize v.regs cv).1 } sLoc
      rw [h2] at h3
      exact Or.inr ⟨cv, hgen, h3⟩

/-- The condition under which `Init` takes its slow path (steps 3-5)
with `s` bound to `sLoc`: either no terminal root location was selected
(lines 308-312 select nothing), or one was selected but its source has
no memoized finalized form (line 314's check fails). -/
def slowPath (v : VFileCore) (sLoc : Option LoadLocation) : Prop :=
  (initFinalLoc (initLocations v.sources) = none ∧ sLoc = none) ∨
  (∃ final src, initFinalLoc (initLocations v.sources) = some final ∧
    lookupLoc v.sources final = some src ∧ src.finalized = none ∧
    sLoc = some final)

lemma init_slowPath_eq {W : ExternalWorld} {v : VFileCore}
    {sLoc : Option LoadLocation} (h : slowPath v sLoc) :
    Init W v = initSlow W v (initLocations v.sources) sLoc := by
  rcases h with ⟨h1, rfl⟩ | ⟨final, src, h1, h2, h3, rfl⟩
  · unfold Init
    rw [h1]
  · unfold Init
    rw [h1]
    simp only [h2, h3]

/-- C1, amended: on the slow path, a merge-step (generate) failure makes
`Init` return that error with the instance — root included — untouched;
a finalize-step failure makes `Init` return that error with the root
already assigned finalize's first return component (nil after a type
error, the partially-built result after a missing-registration or
component-finalize error); a storage-step (step 5) failure makes `Init`
return that error with the root holding the complete finalized tree and
the terminal source already carrying the memoized form. In every error
case the root equals either its previous value or whatever `finalize`
returned. -/
theorem C1_init_error_root (W : ExternalWorld) (v : VFileCore) :
    (∀ e v2, Init W v = (.err e, v2) →
      v2.root = v.root ∨
      ∃ c, generate v.regs v.sources (initLocations v.sources) = .ok (some c) ∧
        v2.root = (finalize v.regs c).1) ∧
    (∀ sLoc, slowPath v sLoc →
      (∀ e, generate v.regs v.sources (initLocations v.sources) = .err e →
        Init W v = (.err e, v)) ∧
      (∀ e c, generate v.regs v.sources (initLocations v.sources)
          = .ok (some c) →
        (finalize v.regs c).2 = some e →
        Init W v = (.err e, { v with root := (finalize v.regs c).1 })) ∧
      (∀ e c final src f,
        generate v.regs v.sources (initLocations v.sources) = .ok (some c) →
        (finalize v.regs c).2 = none →
        (finalize v.regs c).1 = some f →
        sLoc = some final →
        lookupLoc v.sources final = some src →
        (setFinalized W src f).2 = some e →
        Init W v = (.err e,
          { v with
            root := some f,
            sources := (final, (setFinalized W src f).1) :: v.sources }))) := by
  constructor
  · intro e v2 h
    unfold Init at h
    split at h
    · split at h
      · split at h
        · cases h
        · exact initSlow_err_root h
      · cases h
    · exact initSlow_err_root h
  · intro sLoc hslow
    have hinit := init_slowPath_eq (W := W) hslow
    refine ⟨?_, ?_, ?_⟩
    · intro e hgen
      rw [hinit]
      unfold initSlow
      rw [hgen]
    · intro e c hgen hfin
      rw [hinit]
      unfold initSlow
      simp only [hgen, hfin]
    · intro e c final src f hgen hfin2 hfin1 hsLoc hsrc hset
      subst hsLoc
      rw [hinit]
      unfold initSlow
      simp only [hgen, hfin2]
      unfold initStore
      simp only [hsrc, hfin1, hset]

/-- A world whose decode yields an empty tree; the C1, C3 and target
derivation witnesses use it. -/
def W0 : ExternalWorld :=
  { decodeHash := fun _ => .ok (some []),
    encodeData := fun _ => .ok .vnil,
    parseSubvm := fun _ => .ok .vnil,
    parseProvider := fun _ _ => .ok .vnil }

/-- A basis-location source whose unfinalized tree has one namespace and
no memoized finalized form. -/
def srcBasis : SourceV :=
  { base := { Unfinalized := some .vnil, Finalized := none },
    finalized := none,
    unfinalized := some [("vm", GoValue.vnil)] }

/-- An instance with the basis source above and no registrations. -/
def vC1 : VFileCore :=
  { sources := [(.basis, srcBasis)], root := none, regs := [], origin := none }

/-- C1, counterexample: on an instance whose single basis source defines
namespace "vm" with no component registered, `Init`'s finalize step
fails — and `Init` returns that error with the root assigned finalize's
partial result (the empty tree), not left nil as the claim requires. -/
theorem C1_counterexample :
    (Init W0 vC1).1 = .err (.noPluginForNamespace "vm") ∧
    (Init W0 vC1).2.root = some [] ∧
    (Init W0 vC1).2.root ≠ none :=
  ⟨rfl, rfl, by
    intro hcon
    have heq : (Init W0 vC1).2.root = some [] := rfl
    rw [heq] at hcon
    cases hcon⟩

/-- An instance with the unregistered-namespace basis source at two
locations, so that the merge step itself fails. -/
def vGen : VFileCore :=
  { sources := [(.basis, srcBasis), (.project, srcBasis)],
    root := none, regs := [], origin := none }

/-- A basis source whose unfinalized tree is empty, so merge and
finalize succeed and only the storage step can fail. -/
def srcEnc : SourceV :=
  { base := { Unfinalized := some .vnil, Finalized := none },
    finalized := none,
    unfinalized := some [] }

/-- An instance with only the empty basis source. -/
def vEnc : VFileCore :=
  { sources := [(.basis, srcEnc)], root := none, regs := [], origin := none }

/-- A world whose encode always fails, forcing a storage-step error. -/
def Wbad : ExternalWorld :=
  { decodeHash := fun _ => .ok (some []),
    encodeData := fun _ => .error (.externalFailure "enc"),
    parseSubvm := fun _ => .ok .vnil,
    parseProvider := fun _ _ => .ok .vnil }

/-- Witness for C1: the amended theorem applied at concrete instances
hitting each failure mode — a merge failure leaves the instance
untouched, a finalize failure leaves the root assigned the partial
result, a storage failure leaves the root holding the complete finalized
tree, and the coverage disjunction holds at the finalize-failure
instance. -/
theorem C1_init_error_root_witness :
    Init W0 vGen = (.err (.noPluginForNamespace "vm"), vGen) ∧
    Init W0 vC1 = (.err (.noPluginForNamespace "vm"),
      { vC1 with root := some [] }) ∧
    Init Wbad vEnc = (.err (.externalFailure "enc"),
      { vEnc with
        root := some [],
        sources := (.basis, { srcEnc with finalized := some [] })
          :: vEnc.sources }) ∧
    ((Init W0 vC1).2.root = vC1.root ∨
      ∃ c, generate vC1.regs vC1.sources (initLocations vC1.sources)
          = .ok (some c) ∧
        (Init W0 vC1).2.root = (finalize vC1.regs c).1) :=
  ⟨((C1_init_error_root W0 vGen).2 (some .project)
      (Or.inr ⟨.project, srcBasis, rfl, rfl, rfl, rfl⟩)).1
      (.noPluginForNamespace "vm") rfl,
   ((C1_init_error_root W0 vC1).2 (some .basis)
      (Or.inr ⟨.basis, srcBasis, rfl, rfl, rfl, rfl⟩)).2.1
      (.noPluginForNamespace "vm") [("vm", GoValue.vnil)] rfl rfl,
   ((C1_init_error_root Wbad vEnc).2 (some .basis)
      (Or.inr ⟨.basis, srcEnc, rfl, rfl, rfl, rfl⟩)).2.2
      (.externalFailure "enc") [] .basis srcEnc [] rfl rfl rfl rfl rfl rfl,
   (C1_init_error_root W0 vC1).1 (.noPluginForNamespace "vm")
      (Init W0 vC1).2 rfl⟩

/-- C3: when the highest-precedence present location is a valid terminal
root location and its source carries a memoized finalized tree, `Init`
adopts that tree as root exactly and succeeds. The statement holds for
every external world and every registration map — in particular for
components whose merge and finalize always fail — so no component merge
or finalize is consulted on this path. -/
theorem C3_fast_path (W : ExternalWorld) (v : VFileCore)
    (final : LoadLocation) (src : SourceV) (fin : Entries)
    (hlast : (initLocations v.sources).getLast? = some final)
    (hvalid : isValidRootLocation final = true)
    (hsrc : lookupLoc v.sources final = some src)
    (hfin : src.finalized = some fin) :
    Init W v = (.ok (), { v with root := some fin }) := by
  unfold Init initFinalLoc
  rw [hlast]
  simp only [hvalid, if_true, hsrc, hfin]

/-- A project-location source carrying a memoized finalized tree. -/
def srcFin : SourceV :=
  { base := { Unfinalized := some .vnil, Finalized := some .vnil },
    finalized := some [("vm", GoValue.vcfg [])],
    unfinalized := some [] }

/-- An instance whose only source is the finalized project source. -/
def vC3 : VFileCore :=
  { sources := [(.project, srcFin)], root := none, regs := [], origin := none }

/-- Witness for C3: the fast path at a concrete instance adopts the
memoized tree. -/
theorem C3_fast_path_witness :
    Init W0 vC3 = (.ok (), { vC3 with root := some [("vm", GoValue.vcfg [])] }) :=
  C3_fast_path W0 vC3 .project srcFin [("vm", GoValue.vcfg [])] rfl rfl rfl rfl

/-! `clone` and `TargetConfig`. -/

/-- `clone` (lines 960-995): shallow-copies the registrations and
sources maps into a fresh instance with no root and a fresh empty cache,
rebuilds the internal plumbing from the origin when one is supplied (the
`if origin != nil` branch, modelled opaquely), then unconditionally
calls `origin.Closer(...)` — a method call on a nil interface, hence a
panic, when `origin` is nil. -/
def clone (v : VFileCore) (name : String) (origin : Option Unit) :
    GoResult VFileCore :=
  match origin with
  | none => .panicked .nilInterfaceCall
  | some _ =>
    .ok { sources := v.sources, root := none, regs := v.regs, origin := origin }

/-- A full instance: the pipeline state plus the cache of derived
target configurations (fresh per instance, never cleared). -/
structure VFile where
  core : VFileCore
  cache : List (String × VFileCore)

/-- Cache read (`cacher.Cache.Get`). -/
def lookupCache : List (String × VFileCore) → String → Option VFileCore
  | [], _ => none
  | (k, c) :: rest, key => if k = key then some c else lookupCache rest key

/-- The cache key of `TargetConfig` (line 491): `name + "+" + provider`. -/
def cid (name provider : String) : String :=
  name ++ "+" ++ provider

/-- The tail of `TargetConfig` (lines 561-567): run `Init` on the clone,
wrapping its error; on success register the clone in the cache under the
computed key and return it. -/
def targetConfigFinish (W : ExternalWorld) (v : VFile)
    (name provider : String) (newV : VFileCore) (calls : Nat) :
    GoResult VFileCore × VFile × Nat :=
  match Init W newV with
  | (.panicked p, _) => (.panicked p, v, calls)
  | (.err e, _) => (.err (.wrapInit e), v, calls)
  | (.ok _, newV2) =>
    (.ok newV2,
     { v with cache := (cid name provider, newV2) :: v.cache }, calls)

/-- The provider step of `TargetConfig` (lines 543-559): when a
non-empty provider was requested, the provider-specific expansion is
parsed and added as a provider-location source. -/
def targetConfigProvider (W : ExternalWorld) (v : VFile)
    (name provider : String) (newV : VFileCore) (raw : String) :
    GoResult VFileCore × VFile × Nat :=
  if provider = "" then targetConfigFinish W v name provider newV 1
  else
    match W.parseProvider provider raw with
    | .error e => (.err e, v, 2)
    | .ok resp2 =>
      match Source W newV
          (some { Unfinalized := some resp2, Finalized := none }) .provider with
      | .error e => (.err (.wrapProviderSource e), v, 2)
      | .ok newV2 => targetConfigFinish W v name provider newV2 2

/-- `TargetConfig` (lines 483-568): cache lookup on `name + "+" +
provider` first; then the raw per-target definition is fetched with
`GetValue("vm","__defined_vms",name)`, a nil value is an error, a
non-raw-ruby value fails the unchecked type assertion (panic); the
definition is expanded by the external parser, the instance is cloned
with the parent's origin, the expansion is added as a target-location
source, the optional provider expansion is added, `Init` runs on the
clone and the result is cached. The third component counts external
parser invocations. -/
def TargetConfig (W : ExternalWorld) (v : VFile) (name provider : String)
    (validateProvider : Bool) : GoResult VFileCore × VFile × Nat :=
  match lookupCache v.cache (cid name provider) with
  | some cv => (.ok cv, v, 0)
  | none =>
    match GetValue v.core.root ["vm", "__defined_vms", name] with
    | .panicked p => (.panicked p, v, 0)
    | .err e => (.err e, v, 0)
    | .ok subvm =>
      match subvm with
      | .vnil => (.err .emptyTargetValue, v, 0)
      | .vraw raw =>
        match W.parseSubvm raw with
        | .error e => (.err e, v, 1)
        | .ok resp =>
          match clone v.core name v.core.origin with
          | .panicked p => (.panicked p, v, 1)
          | .err e => (.err e, v, 1)
          | .ok newV =>
            match Source W newV
                (some { Unfinalized := some resp, Finalized := none }) .target with
            | .error e => (.err (.wrapTargetSource e), v, 1)
            | .ok newV2 => targetConfigProvider W v name provider newV2 raw
      | _ => (.panicked .interfaceConversion, v, 0)

lemma targetConfigFinish_ok {W : ExternalWorld} {v : VFile}
    {name provider : String} {newV : VFileCore} {calls : Nat}
    {d : VFileCore} {v2 : VFile} {k : Nat}
    (h : targetConfigFinish W v name provider newV calls = (.ok d, v2, k)) :
    v2 = { v with cache := (cid name provider, d) :: v.cache } := by
  unfold targetConfigFinish at h
  split at h
  · cases h
  · cases h
  · cases h
    rfl

lemma targetConfigProvider_ok {W : ExternalWorld} {v : VFile}
    {name provider : String} {newV : VFileCore} {raw : String}
    {d : VFileCore} {v2 : VFile} {k : Nat}
    (h : targetConfigProvider W v name provider newV raw = (.ok d, v2, k)) :
    v2 = { v with cache := (cid name provider, d) :: v.cache } := by
  unfold targetConfigProvider at h
  split at h
  · exact targetConfigFinish_ok h
  · split at h
    · cases h
    · split at h
      · cases h
      · exact targetConfigFinish_ok h

lemma targetConfig_ok_cases {W : ExternalWorld} {v : VFile}
    {name provider : String} {vp : Bool}
    {d : VFileCore} {v2 : VFile} {k : Nat}
    (h : TargetConfig W v name provider vp = (.ok d, v2, k)) :
    (lookupCache v.cache (cid name provider) = some d ∧ v2 = v) ∨
    (lookupCache v.cache (cid name provider) = none ∧
      v2 = { v with cache := (cid name provider, d) :: v.cache }) := by
  unfold TargetConfig at h
  split at h
  · rename_i cv hcv
    cases h
    exact Or.inl ⟨hcv, rfl⟩
  · rename_i hmiss
    split at h
    · cases h
    · cases h
    · split at h
      · cases h
      · split at h
        · cases h
        · split at h
          · cases h
          · cases h
          · split at h
            · cases h
            · exact Or.inr ⟨hmiss, targetConfigProvider_ok h⟩
      · cases h

lemma targetConfig_cached {W : ExternalWorld} {v : VFile}
    {name provider : String} {vp : Bool} {d : VFileCore}
    (hc : lookupCache v.cache (cid name provider) = some d) :
    TargetConfig W v name provider vp = (.ok d, v, 0) := by
  unfold TargetConfig
  rw [hc]

/-- C7: if a call to `TargetConfig` for a (name, provider) pair
succeeds, any later call on the resulting instance with the same pair
returns the identical cached derived instance, leaves the state
unchanged, and performs zero external parser invocations — whatever the
external world does meanwhile; and the call never removes or replaces an
existing cache entry. -/
theorem C7_target_config_idempotent (W : ExternalWorld) (v : VFile)
    (name provider : String) (vp : Bool)
    (d : VFileCore) (v2 : VFile) (k : Nat)
    (h : TargetConfig W v name provider vp = (.ok d, v2, k)) :
    (∀ (W2 : ExternalWorld) (vp2 : Bool),
      TargetConfig W2 v2 name provider vp2 = (.ok d, v2, 0)) ∧
    (∀ key x, lookupCache v.cache key = some x →
      lookupCache v2.cache key = some x) := by
  rcases targetConfig_ok_cases h with ⟨hc, rfl⟩ | ⟨hmiss, rfl⟩
  · exact ⟨fun W2 vp2 => targetConfig_cached hc, fun key x hx => hx⟩
  · constructor
    · intro W2 vp2
      apply targetConfig_cached
      simp [lookupCache]
    · intro key x hx
      simp only [lookupCache]
      by_cases hk : cid name provider = key
      · subst hk
        rw [hmiss] at hx
        cases hx
      · rw [if_neg hk]
        exact hx

/-- The parent instance used by the C7 witness: its root defines one
target "web" with a raw ruby definition, and its cache is empty. -/
def pcore : VFileCore :=
  { sources := [],
    root := some [("vm", GoValue.vcfg
      [("__defined_vms", GoValue.vsmap [("web", GoValue.vraw "webdef")])])],
    regs := [],
    origin := some () }

/-- The parent instance (empty cache) derived from `pcore`. -/
def vP : VFile := { core := pcore, cache := [] }

/-- The target-location source the derivation creates before `Init`. -/
def srcT1 : SourceV :=
  { base := { Unfinalized := some .vnil, Finalized := none },
    finalized := none,
    unfinalized := some [] }

/-- The same source after `Init` memoizes the finalized tree on it. -/
def srcT2 : SourceV :=
  { base := { Unfinalized := some .vnil, Finalized := some .vnil },
    finalized := some [],
    unfinalized := some [] }

/-- The derived instance `TargetConfig` produces for ("web", ""). -/
def dWeb : VFileCore :=
  { sources := [(.target, srcT2), (.target, srcT1)],
    root := some [],
    regs := [],
    origin := some () }

/-- The parent after the first derivation: the clone cached under
"web+". -/
def vPafter : VFile := { core := pcore, cache := [("web+", dWeb)] }

/-- Witness for C7: after a concrete successful derivation for
("web", ""), the second call returns the identical cached instance with
zero parser invocations. -/
theorem C7_target_config_idempotent_witness :
    TargetConfig W0 vPafter "web" "" false = (.ok dWeb, vPafter, 0) :=
  (C7_target_config_idempotent W0 vP "web" "" false dWeb vPafter 1 rfl).1
    W0 false

/-- C9: `clone` with a nil origin scope panics with a nil-interface
method call (the unconditional `origin.Closer(...)` after the nil-origin
branch), and consequently `TargetConfig` on an instance without an
origin panics once it reaches the clone step. -/
theorem C9_clone_nil_origin (v : VFileCore) (name : String) :
    clone v name none = .panicked .nilInterfaceCall ∧
    (∀ (W : ExternalWorld) (cache : List (String × VFileCore))
      (provider : String) (vp : Bool) (raw : String) (resp : ArgsHash),
      v.origin = none →
      lookupCache cache (cid name provider) = none →
      GetValue v.root ["vm", "__defined_vms", name] = .ok (.vraw raw) →
      W.parseSubvm raw = .ok resp →
      TargetConfig W ⟨v, cache⟩ name provider vp
        = (.panicked .nilInterfaceCall, ⟨v, cache⟩, 1)) := by
  constructor
  · rfl
  · intro W cache provider vp raw resp horigin hmiss hval hparse
    unfold TargetConfig
    simp only [hmiss, hval, hparse, horigin, clone]

/-- An instance with a target definition but no origin scope. -/
def vNoOrigin : VFileCore :=
  { sources := [],
    root := some [("vm", GoValue.vcfg
      [("__defined_vms", GoValue.vsmap [("db", GoValue.vraw "dbdef")])])],
    regs := [],
    origin := none }

/-- Witness for C9: the concrete derivation for "db" on an origin-less
instance panics at the clone step after one parser invocation. -/
theorem C9_clone_nil_origin_witness :
    TargetConfig W0 ⟨vNoOrigin, []⟩ "db" "" false
      = (.panicked .nilInterfaceCall, ⟨vNoOrigin, []⟩, 1) :=
  (C9_clone_nil_origin vNoOrigin "db").2 W0 [] "" false "dbdef" .vnil
    rfl rfl rfl rfl

/-- C10: the cache key `name + "+" + provider` identifies the distinct
pairs ("a+b", "c") and ("a", "b+c"), so after a successful call for the
first pair, a call for the second pair returns the instance cached for
the first instead of deriving its own (zero parser invocations). -/
theorem C10_cache_key_collision :
    cid "a+b" "c" = cid "a" "b+c" ∧
    (("a+b", "c") : String × String) ≠ ("a", "b+c") ∧
    (∀ (W : ExternalWorld) (v : VFile) (vp : Bool)
      (d : VFileCore) (v2 : VFile) (k : Nat),
      TargetConfig W v "a+b" "c" vp = (.ok d, v2, k) →
      ∀ (W2 : ExternalWorld) (vp2 : Bool),
        TargetConfig W2 v2 "a" "b+c" vp2 = (.ok d, v2, 0)) := by
  refine ⟨rfl, by decide, ?_⟩
  intro W v vp d v2 k h W2 vp2
  rcases targetConfig_ok_cases h with ⟨hc, rfl⟩ | ⟨hmiss, rfl⟩
  · exact targetConfig_cached hc
  · apply targetConfig_cached
    have hcid : cid "a" "b+c" = cid "a+b" "c" := rfl
    rw [hcid]
    simp [lookupCache]

/-- A derived instance already cached under the colliding key. -/
def dX : VFileCore :=
  { sources := [], root := some [], regs := [], origin := none }

/-- An instance whose cache maps "a+b+c" to `dX`. -/
def vX : VFile :=
  { core := { sources := [], root := none, regs := [], origin := none },
    cache := [("a+b+c", dX)] }

/-- Witness for C10: with "a+b+c" cached (as a call for ("a+b", "c")
leaves it), the call for ("a", "b+c") returns the cached instance. -/
theorem C10_cache_key_collision_witness :
    TargetConfig W0 vX "a" "b+c" false = (.ok dX, vX, 0) :=
  C10_cache_key_collision.2.2 W0 vX false dX vX 0 rfl W0 false

end Vagrantfile
